import Mathlib

/-!
Verification of the mertex.md math-protection core.

The JavaScript sources are shallowly embedded over `Str := List Char`
(JS strings restricted to the Basic Multilingual Plane, so one `Char`
per UTF-16 code unit).  Loops with a moving cursor are embedded as
fuel-indexed recursions; the fuel bounds are chosen from the loop
measures and shown sufficient where a claim needs it.  The optional
KaTeX / auto-render backends (DOM effects) are abstracted as function
parameters, everything else follows the source line by line.
-/

set_option maxRecDepth 10000

namespace Mertex

/-- JS strings as lists of UTF-16 code units (BMP characters). -/
abbrev Str := List Char

def strOf (s : String) : Str := s.data

/-! ### Character classes used by the JavaScript regexes -/

def isAsciiDigit (c : Char) : Bool := 48 ≤ c.toNat && c.toNat ≤ 57

def isLowerCh (c : Char) : Bool := 97 ≤ c.toNat && c.toNat ≤ 122

def isUpperCh (c : Char) : Bool := 65 ≤ c.toNat && c.toNat ≤ 90

def isLetterCh (c : Char) : Bool := isLowerCh c || isUpperCh c

/-- The character class of the regex escape \w : [A-Za-z0-9_]. -/
def isWordCh (c : Char) : Bool := isLetterCh c || isAsciiDigit c || c == '_'

/-- The character class of the regex escape \s (ECMAScript WhiteSpace
    together with the line terminators). -/
def isJsSpace (c : Char) : Bool :=
  let n := c.toNat
  n == 9 || n == 10 || n == 11 || n == 12 || n == 13 || n == 32 ||
  n == 160 || n == 5760 || (8192 ≤ n && n ≤ 8202) ||
  n == 8232 || n == 8233 || n == 8239 || n == 8287 || n == 12288 || n == 65279

/-- ECMAScript line terminators (the characters NOT matched by the regex dot). -/
def isLineTerm (c : Char) : Bool :=
  c.toNat == 10 || c.toNat == 13 || c.toNat == 8232 || c.toNat == 8233

/-- The backtick character (code unit 96). -/
def backquote : Char := Char.ofNat 96

/-- The left curly brace character (code unit 123). -/
def lbrace : Char := Char.ofNat 123

/-- The right curly brace character (code unit 125). -/
def rbrace : Char := Char.ofNat 125

/-! ### JS string primitives -/

/-- Does `pat` occur in `s` starting at index `i`? -/
def isPrefixAt (pat s : Str) (i : Nat) : Bool := pat.isPrefixOf (s.drop i)

def indexOfAux (s pat : Str) : Nat → Nat → Option Nat
  | _, 0 => none
  | i, fuel+1 => if isPrefixAt pat s i then some i else indexOfAux s pat (i+1) fuel

/-- JS `s.indexOf(pat, start)` for a nonempty pattern: the first index
    `≥ start` at which `pat` occurs, `none` when there is none. -/
def indexOfFrom (s pat : Str) (start : Nat) : Option Nat :=
  indexOfAux s pat start (s.length + 1 - start)

/-- JS `s.includes(pat)` / `pat` regex containment for a literal pattern. -/
def containsSub (s pat : Str) : Bool := (indexOfFrom s pat 0).isSome

/-- JS `s.substring(a, b)` (with its clamping and argument swapping). -/
def jsSubstring (s : Str) (a b : Nat) : Str :=
  let a2 := min a s.length
  let b2 := min b s.length
  if a2 ≤ b2 then (s.take b2).drop a2 else (s.take a2).drop b2

/-- JS `s.trim()`. -/
def jsTrim (s : Str) : Str :=
  ((s.dropWhile isJsSpace).reverse.dropWhile isJsSpace).reverse

def replaceAllAux (pat rep : Str) : Str → Nat → Str
  | s, 0 => s
  | s, fuel+1 =>
    match indexOfFrom s pat 0 with
    | none => s
    | some i => s.take i ++ rep ++ replaceAllAux pat rep (s.drop (i + pat.length)) fuel

/-- JS `s.split(pat).join(rep)`: replace every non-overlapping occurrence
    of the nonempty `pat`, left to right. -/
def replaceAll (s pat rep : Str) : Str := replaceAllAux pat rep s (s.length + 1)

/-- Decimal digits of a natural number, as JS number-to-string coercion prints it. -/
def natToStrAux : Nat → Nat → Str
  | _, 0 => []
  | n, fuel+1 =>
    if n < 10 then [Char.ofNat (48 + n)]
    else natToStrAux (n / 10) fuel ++ [Char.ofNat (48 + n % 10)]

def natToStr (n : Nat) : Str := natToStrAux n (n + 1)

/-! ### hash.js -/

def digit36 (d : Nat) : Char :=
  if d < 10 then Char.ofNat (48 + d) else Char.ofNat (87 + d)

def natToBase36Aux : Nat → Nat → Str
  | _, 0 => []
  | n, fuel+1 =>
    if n < 36 then [digit36 n]
    else natToBase36Aux (n / 36) fuel ++ [digit36 (n % 36)]

/-- JS `n.toString(36)` for an unsigned 32-bit value. -/
def natToBase36 (n : Nat) : Str := natToBase36Aux n (n + 1)

/-- JS ToInt32: wrap an integer to the signed 32-bit range. -/
def toInt32 (n : Int) : Int :=
  let m := n % 4294967296
  if m < 2147483648 then m else m - 4294967296

/-- One iteration of the hash loop of hash.js:
    `hash = ((hash << 5) - hash) + charCode; hash = hash & hash`. -/
def hashStep (h : Int) (c : Char) : Int :=
  toInt32 (toInt32 (h * 32) - h + (c.toNat : Int))

/-- hash.js `hashBase36`: 31-based 32-bit string hash printed in base 36
    after an unsigned (`>>> 0`) reinterpretation. -/
def hashBase36 (s : Str) : Str :=
  if s.isEmpty then strOf "0"
  else natToBase36 ((s.foldl hashStep 0 % 4294967296).toNat)

/-! ### hash.js base64 (btoa/unescape/encodeURIComponent composition,
    equivalently base64 over the UTF-8 bytes of the string) -/

def utf8Bytes (c : Char) : List Nat :=
  let n := c.toNat
  if n < 128 then [n]
  else if n < 2048 then [192 + n / 64, 128 + n % 64]
  else if n < 65536 then [224 + n / 4096, 128 + (n / 64) % 64, 128 + n % 64]
  else [240 + n / 262144, 128 + (n / 4096) % 64, 128 + (n / 64) % 64, 128 + n % 64]

def b64Char (d : Nat) : Char :=
  if d < 26 then Char.ofNat (65 + d)
  else if d < 52 then Char.ofNat (97 + (d - 26))
  else if d < 62 then Char.ofNat (48 + (d - 52))
  else if d == 62 then '+' else '/'

def b64EncodeBytes : List Nat → Str
  | [] => []
  | [a] => [b64Char (a / 4), b64Char ((a % 4) * 16), '=', '=']
  | [a, b] => [b64Char (a / 4), b64Char ((a % 4) * 16 + b / 16), b64Char ((b % 16) * 4), '=']
  | a :: b :: c :: rest =>
    b64Char (a / 4) :: b64Char ((a % 4) * 16 + b / 16) ::
    b64Char ((b % 16) * 4 + c / 64) :: b64Char (c % 64) :: b64EncodeBytes rest

/-- hash.js `encodeBase64`. -/
def encodeBase64 (s : Str) : Str := b64EncodeBytes (s.map utf8Bytes).flatten

def b64Val (c : Char) : Nat :=
  let n := c.toNat
  if 65 ≤ n && n ≤ 90 then n - 65
  else if 97 ≤ n && n ≤ 122 then n - 97 + 26
  else if 48 ≤ n && n ≤ 57 then n - 48 + 52
  else if n == 43 then 62
  else if n == 47 then 63
  else 0

def b64DecodeBytes : Str → List Nat
  | c1 :: c2 :: c3 :: c4 :: rest =>
    let v1 := b64Val c1
    let v2 := b64Val c2
    if c3 = '=' then [v1 * 4 + v2 / 16]
    else
      let v3 := b64Val c3
      if c4 = '=' then [v1 * 4 + v2 / 16, (v2 % 16) * 16 + v3 / 4]
      else
        (v1 * 4 + v2 / 16) :: ((v2 % 16) * 16 + v3 / 4) :: ((v3 % 4) * 64 + b64Val c4) ::
        b64DecodeBytes rest
  | _ => []

def utf8DecodeAux : List Nat → Nat → Str
  | _, 0 => []
  | [], _ => []
  | b :: rest, fuel+1 =>
    if b < 128 then Char.ofNat b :: utf8DecodeAux rest fuel
    else if b < 224 then
      match rest with
      | b2 :: rest2 => Char.ofNat ((b - 192) * 64 + (b2 - 128)) :: utf8DecodeAux rest2 fuel
      | [] => []
    else if b < 240 then
      match rest with
      | b2 :: b3 :: rest2 =>
        Char.ofNat ((b - 224) * 4096 + (b2 - 128) * 64 + (b3 - 128)) :: utf8DecodeAux rest2 fuel
      | _ => []
    else
      match rest with
      | b2 :: b3 :: b4 :: rest2 =>
        Char.ofNat ((b - 240) * 262144 + (b2 - 128) * 4096 + (b3 - 128) * 64 + (b4 - 128)) ::
        utf8DecodeAux rest2 fuel
      | _ => []

/-- hash.js `decodeBase64`. -/
def decodeBase64 (s : Str) : Str :=
  let bytes := b64DecodeBytes s
  utf8DecodeAux bytes (bytes.length + 1)

/-! ### utils/currency-detector.js -/

/-- Regex test /[a-zA-Z]\s*\(.*\)/ : a letter, optional whitespace, an
    opening parenthesis, and a closing parenthesis later on the same line
    (the regex dot does not cross line terminators). -/
def letterParenShape (s : Str) : Bool :=
  s.tails.any fun t =>
    match t with
    | c :: rest =>
      isLetterCh c &&
      (match rest.dropWhile isJsSpace with
       | d :: r2 => d == '(' && (r2.takeWhile (fun e => !isLineTerm e)).contains ')'
       | [] => false)
    | [] => false

/-- Regex test /[\r\n]\s*[-*+#]/. -/
def newlineListMarker (s : Str) : Bool :=
  s.tails.any fun t =>
    match t with
    | c :: rest =>
      (c == '\r' || c == '\n') &&
      (match rest.dropWhile isJsSpace with
       | d :: _ => d == '-' || d == '*' || d == '+' || d == '#'
       | [] => false)
    | [] => false

/-- Regex test /[.!?]\s+[A-Z]/. -/
def sentenceThenCapital (s : Str) : Bool :=
  s.tails.any fun t =>
    match t with
    | c :: d :: rest =>
      (c == '.' || c == '!' || c == '?') && isJsSpace d &&
      (match (d :: rest).dropWhile isJsSpace with
       | e :: _ => isUpperCh e
       | [] => false)
    | _ => false

def wordRunsAux : Str → Nat → List Str
  | [], _ => []
  | _ :: _, 0 => []
  | c :: rest, fuel+1 =>
    if isWordCh c then
      (c :: rest).takeWhile isWordCh :: wordRunsAux ((c :: rest).dropWhile isWordCh) fuel
    else wordRunsAux rest fuel

/-- The maximal \w-runs of a string.  The matches of /\b[a-zA-Z]+\b/g
    (respectively with a 3+ repetition bound) are exactly those runs that
    consist purely of letters, since any adjacent word character destroys
    the required word boundary. -/
def wordRuns (s : Str) : List Str := wordRunsAux s s.length

def lowerChar (c : Char) : Char := if isUpperCh c then Char.ofNat (c.toNat + 32) else c

def lowerStr (s : Str) : Str := s.map lowerChar

def latexCommands : List Str :=
  [strOf "frac", strOf "sqrt", strOf "sum", strOf "prod", strOf "int", strOf "lim",
   strOf "log", strOf "sin", strOf "cos", strOf "tan",
   strOf "alpha", strOf "beta", strOf "gamma", strOf "delta", strOf "theta",
   strOf "lambda", strOf "sigma", strOf "omega",
   strOf "infty", strOf "partial", strOf "nabla", strOf "cdot", strOf "times",
   strOf "div", strOf "pm", strOf "mp",
   strOf "leq", strOf "geq", strOf "neq", strOf "approx", strOf "equiv",
   strOf "subset", strOf "supset",
   strOf "mathbb", strOf "mathcal", strOf "mathrm", strOf "text", strOf "left",
   strOf "right", strOf "begin", strOf "end",
   strOf "ln", strOf "exp", strOf "pi"]

/-- The filtered matches of /\b[a-zA-Z]{3,}\b/g : 3+ letter words that are
    not on the LaTeX command allow-list (case-insensitively). -/
def englishWords (s : Str) : List Str :=
  ((wordRuns s).filter fun r => r.all isLetterCh && 3 ≤ r.length).filter
    fun w => !latexCommands.contains (lowerStr w)

/-- The character class of /[*#`\[\]]/. -/
def mdMarker (c : Char) : Bool :=
  c == '*' || c == '#' || c == backquote || c == '[' || c == ']'

/-- The character class [\d.,]. -/
def numClass (c : Char) : Bool := isAsciiDigit c || c == '.' || c == ','

/-- Regex test /^[\d.,]+[,\s]*$/. -/
def pureNumericShape (s : Str) : Bool :=
  (List.range (s.takeWhile numClass).length).any fun j =>
    (s.drop (j+1)).all fun c => c == ',' || isJsSpace c

/-- Regex test /^[\d.,]+\s*-?\s*$/. -/
def numericTrailingDash (s : Str) : Bool :=
  (List.range (s.takeWhile numClass).length).any fun j =>
    let r := s.drop (j+1)
    r.all isJsSpace ||
    (match r.dropWhile isJsSpace with
     | '-' :: r2 => r2.all isJsSpace
     | _ => false)

def kmbChar (c : Char) : Bool :=
  c == 'k' || c == 'K' || c == 'm' || c == 'M' || c == 'b' || c == 'B'

/-- The character class [,\s)]. -/
def tailPunct (c : Char) : Bool := c == ',' || isJsSpace c || c == ')'

/-- The suffix (?:\/\w+)?[,\s)]*$ of the currency-format regexes. -/
def slashUnitTail (t : Str) : Bool :=
  t.all tailPunct ||
  (match t with
   | '/' :: r => !(r.takeWhile isWordCh).isEmpty && (r.dropWhile isWordCh).all tailPunct
   | _ => false)

/-- Regex test /^[\d.,]+[kKmMbB]?(?:\/\w+)?[,\s)]*$/. -/
def numericUnitShape (s : Str) : Bool :=
  (List.range (s.takeWhile numClass).length).any fun j =>
    let r := s.drop (j+1)
    slashUnitTail r ||
    (match r with
     | c :: r2 => kmbChar c && slashUnitTail r2
     | [] => false)

/-- Regex test /^\d+(?:\.\d+)?\/\w+[,\s)]*$/ (the greedy match is
    deterministic here: no viable backtracking exists). -/
def perUnitShape (s : Str) : Bool :=
  let d := s.takeWhile isAsciiDigit
  if d.isEmpty then false
  else
    let r := s.drop d.length
    let afterNum : Option Str :=
      match r with
      | '.' :: r3 =>
        let d2 := r3.takeWhile isAsciiDigit
        if d2.isEmpty then none else some (r3.drop d2.length)
      | _ => some r
    match afterNum with
    | some ('/' :: r4) =>
      !(r4.takeWhile isWordCh).isEmpty && (r4.dropWhile isWordCh).all tailPunct
    | _ => false

def alnumCh (c : Char) : Bool := isLetterCh c || isAsciiDigit c

/-- Regex test /[a-zA-Z0-9]\s*[+\-*\/]\s*[a-zA-Z0-9]/. -/
def infixArithShape (s : Str) : Bool :=
  s.tails.any fun t =>
    match t with
    | c :: rest =>
      alnumCh c &&
      (match rest.dropWhile isJsSpace with
       | d :: r2 =>
         (d == '+' || d == '-' || d == '*' || d == '/') &&
         (match r2.dropWhile isJsSpace with
          | e :: _ => alnumCh e
          | [] => false)
       | [] => false)
    | [] => false

def currencyConnectors : List Str :=
  [strOf "or", strOf "to", strOf "and", strOf "per", strOf "a", strOf "an", strOf "the"]

/-- The matches of /\b[a-zA-Z]+\b/g : maximal \w-runs that are pure letters. -/
def letterWords (s : Str) : List Str :=
  (wordRuns s).filter fun r => r.all isLetterCh

/-- The character class of digits, dot, comma, whitespace, dollar, dash, slash. -/
def broadCurrencyClass (c : Char) : Bool :=
  isAsciiDigit c || c == '.' || c == ',' || isJsSpace c || c == '$' || c == '-' || c == '/'

def unitWords : List Str :=
  [strOf "per", strOf "unit", strOf "each", strOf "k", strOf "m", strOf "b",
   strOf "million", strOf "billion", strOf "thousand"]

/-- The case-insensitive full-match regex: one or more broad-currency-class
    characters, then optionally whitespace and a magnitude/unit word
    (per, unit, each, k, m, b, million, billion, thousand).  Since \s is
    contained in the leading class, the optional gap is absorbed by it,
    leaving: all of s in the class, or a unit-word suffix preceded by a
    nonempty all-class prefix. -/
def broadCurrencyShape (s : Str) : Bool :=
  (!s.isEmpty && s.all broadCurrencyClass) ||
  unitWords.any fun w =>
    w.length < s.length &&
    lowerStr (s.drop (s.length - w.length)) == w &&
    (s.take (s.length - w.length)).all broadCurrencyClass

/-- Regex test /,\s+[a-zA-Z]/. -/
def commaThenWord (s : Str) : Bool :=
  s.tails.any fun t =>
    match t with
    | c :: d :: rest =>
      c == ',' && isJsSpace d &&
      (match (d :: rest).dropWhile isJsSpace with
       | e :: _ => isLetterCh e
       | [] => false)
    | _ => false

/-- currency-detector.js `looksLikeCurrency` (lines 157-259): the ordered
    heuristic chain deciding currency (true) versus math (false) for the
    inner text of a candidate single-dollar span. -/
def looksLikeCurrency (content : Str) : Bool :=
  if content.isEmpty || (jsTrim content).isEmpty then true
  else if content.any fun c =>
      c == '\\' || c == '^' || c == '_' || c == lbrace || c == rbrace then false
  else if letterParenShape content then false
  else if content.contains '=' then false
  else if content.any fun c => c == '<' || c == '>' then false
  else if newlineListMarker content then true
  else if sentenceThenCapital content then true
  else if 2 ≤ (englishWords content).length then true
  else if content.any mdMarker then true
  else if pureNumericShape content then true
  else if numericTrailingDash content then true
  else if numericUnitShape content then true
  else if perUnitShape content then true
  else if content.any isLetterCh && infixArithShape content then false
  else if (match content with
           | c :: _ => isAsciiDigit c
           | [] => false) &&
          (let ws := letterWords content
           !ws.isEmpty && (ws.filter fun w => !currencyConnectors.contains (lowerStr w)).isEmpty)
    then true
  else if (match jsTrim content with
           | c :: r => isLetterCh c && r.all isAsciiDigit
           | [] => false) then false
  else if broadCurrencyShape content then true
  else if (match content with
           | c :: _ => isAsciiDigit c
           | [] => false) &&
          (commaThenWord content || content.contains ':') then true
  else if content.length < 20 && (content.filter isLetterCh).length ≤ 3 then true
  else content.length < 10

/-! ### core/math-protector.js -/

structure Delim where
  left : Str
  right : Str
  display : Bool
  priority : Nat
deriving DecidableEq, Repr

def ddDelim : Delim := ⟨strOf "$$", strOf "$$", true, 1⟩

def bdDelim : Delim := ⟨strOf "\\[", strOf "\\]", true, 2⟩

def piDelim : Delim := ⟨strOf "\\(", strOf "\\)", false, 3⟩

def sdDelim : Delim := ⟨strOf "$", strOf "$", false, 4⟩

/-- The constructor's delimiter list, already in the ascending priority
    order that its sort produces. -/
def delimiters : List Delim := [ddDelim, bdDelim, piDelim, sdDelim]

structure SpanInfo where
  original : Str
  encodedOriginal : Str
  display : Bool
  innerContent : Str
  delimiter : Delim
  isPending : Bool
deriving DecidableEq, Repr

abbrev SpanTable := List (Str × SpanInfo)

def mathTokenStr (n : Nat) : Str := strOf "::MATH_" ++ natToStr n ++ strOf "::"

def pendingTokenStr (n : Nat) : Str := strOf "::PENDINGMATH" ++ natToStr n ++ strOf "::"

/-- The token the scanner emits for a captured span numbered n. -/
def mkToken (pending : Bool) (n : Nat) : Str :=
  if pending then pendingTokenStr n else mathTokenStr n

def isInsideBackticks (content : Str) (position : Nat) : Bool :=
  ((content.take position).countP fun c => c == backquote) % 2 == 1

/-- Regex test /::CUR\d+::/. -/
def containsCurToken (s : Str) : Bool :=
  s.tails.any fun t =>
    isPrefixAt (strOf "::CUR") t 0 &&
    (let r := t.drop 5
     let ds := r.takeWhile isAsciiDigit
     !ds.isEmpty && isPrefixAt (strOf "::") r ds.length)

def findDollarCloserAux (s : Str) (paraBreak : Option Nat) : Nat → Nat → Option Nat
  | _, 0 => none
  | tempPos, fuel+1 =>
    if tempPos < s.length then
      match indexOfFrom s (strOf "$") tempPos with
      | none => none
      | some foundPos =>
        if (match paraBreak with | some p => decide (p < foundPos) | none => false) then none
        else if 0 < foundPos && s.getD (foundPos - 1) ' ' == '\\' then
          findDollarCloserAux s paraBreak (foundPos + 1) fuel
        else some foundPos
    else none

/-- The closing-dollar search loop for single-dollar spans (source lines
    216-242): skip escaped dollars, stop at the paragraph boundary. -/
def findDollarCloser (s : Str) (paraBreak : Option Nat) (tempPos : Nat) : Option Nat :=
  findDollarCloserAux s paraBreak tempPos (s.length + 1 - tempPos)

structure ScanState where
  result : Str
  searchPos : Nat
  table : SpanTable
  counter : Nat
deriving DecidableEq, Repr

inductive ScanStep where
  | halt : ScanStep
  | next : ScanState → ScanStep
deriving Repr

/-- The closing-delimiter search of the loop body (source lines 206-245):
    a plain indexOf for double-dollar and the bracket delimiters, the
    escaped-dollar/paragraph-aware loop for single-dollar. -/
def closerFor (delim : Delim) (s : Str) (leftPos : Nat) : Option Nat :=
  if delim.left = strOf "$$" then
    indexOfFrom s delim.right (leftPos + delim.left.length)
  else if delim.left = strOf "$" then
    findDollarCloser s (indexOfFrom s (strOf "\n\n") leftPos) (leftPos + 1)
  else indexOfFrom s delim.right (leftPos + delim.left.length)

/-- One iteration of the extractAndReplace while-loop (source lines
    190-347).  `halt` exits the loop with the current state unchanged,
    `next` continues with the updated state. -/
def scanStep (delim : Delim) (st : ScanState) : ScanStep :=
  match indexOfFrom st.result delim.left st.searchPos with
  | none => .halt
  | some leftPos =>
    if delim.left = strOf "$" ∧ 0 < leftPos ∧ st.result.getD (leftPos - 1) ' ' = '\\' then
      .next { st with searchPos := leftPos + 1 }
    else if delim.left = strOf "$" ∧ isInsideBackticks st.result leftPos then
      .next { st with searchPos := leftPos + 1 }
    else
      match closerFor delim st.result leftPos with
      | none =>
        let afterDelim := (st.result.drop leftPos).drop delim.left.length
        if delim.left = strOf "$" ∧
            looksLikeCurrency (afterDelim.takeWhile fun c => !isJsSpace c) then
          .next { st with searchPos := leftPos + 1 }
        else
          let paraIdx := indexOfFrom st.result (strOf "\n\n") leftPos
          let checkContent :=
            match paraIdx with
            | some p => jsSubstring st.result (leftPos + delim.left.length) p
            | none => afterDelim
          if checkContent ≠ [] ∧
              (checkContent.contains '\\' ∨ checkContent.contains '^' ∨
               checkContent.contains lbrace ∨ containsSub checkContent (strOf "begin") ∨
               containsSub checkContent (strOf "frac")) then
            let endPos := match paraIdx with | some p => p | none => st.result.length
            let limited := jsSubstring st.result leftPos endPos
            let ph := pendingTokenStr st.counter
            .next {
              result := st.result.take leftPos ++ ph ++ st.result.drop endPos,
              searchPos := leftPos + ph.length,
              table := st.table ++ [(ph,
                ⟨limited, encodeBase64 limited, delim.display, checkContent, delim, true⟩)],
              counter := st.counter + 1 }
          else .halt
      | some rightPos =>
        let mathEnd := rightPos + delim.right.length
        let mathExpression := jsSubstring st.result leftPos mathEnd
        let innerContent := jsSubstring st.result (leftPos + delim.left.length) rightPos
        if jsTrim innerContent = [] then .next { st with searchPos := mathEnd }
        else if delim.left = strOf "$" ∧
            (innerContent.contains '\n' ∨ innerContent.contains '\r') then
          .next { st with searchPos := leftPos + 1 }
        else if containsCurToken innerContent then
          .next { st with searchPos := leftPos + 1 }
        else if delim.left = strOf "$" ∧ looksLikeCurrency innerContent then
          .next { st with searchPos := leftPos + 1 }
        else
          let ph := mathTokenStr st.counter
          .next {
            result := st.result.take leftPos ++ ph ++ st.result.drop mathEnd,
            searchPos := leftPos + ph.length,
            table := st.table ++ [(ph,
              ⟨mathExpression, encodeBase64 mathExpression, delim.display,
               innerContent, delim, false⟩)],
            counter := st.counter + 1 }

def scanLoopAux (delim : Delim) : Nat → ScanState → Option ScanState
  | 0, _ => none
  | fuel+1, st =>
    if st.searchPos < st.result.length then
      match scanStep delim st with
      | .halt => some st
      | .next st2 => scanLoopAux delim fuel st2
    else some st

/-- Fuel that the termination theorem shows sufficient for the scan loop. -/
def extractFuel (st : ScanState) : Nat := st.result.length - st.searchPos + 1

/-- MathProtector.extractAndReplace (source lines 186-350) for one
    delimiter kind, threading the span table and the token counter.
    The fuel `content.length + 1` equals `extractFuel` of the initial
    state and is shown sufficient by the termination theorem, so the
    `none` fallback (which returns the inputs unchanged) is unreachable. -/
def extractAndReplace (content : Str) (delim : Delim) (table : SpanTable) (counter : Nat) :
    Str × SpanTable × Nat :=
  match scanLoopAux delim (content.length + 1) ⟨content, 0, table, counter⟩ with
  | some st => (st.result, st.table, st.counter)
  | none => (content, table, counter)

/-- Verification predicate: `tb` extends `tb0` by entries whose keys are
    the tokens of the consecutive counter values `c0, c0+1, ..., c-1`
    (each either a math or a pending token). -/
def TokensFrom (tb0 : SpanTable) (c0 : Nat) (tb : SpanTable) (c : Nat) : Prop :=
  ∃ (k : Nat) (flags : List Bool), flags.length = k ∧ c = c0 + k ∧
    tb.map Prod.fst = tb0.map Prod.fst ++ List.zipWith mkToken flags (List.range' c0 k)

/-- Match \$(\d[\d,]*(?:\.\d+)?) (one currency amount) at the head of s,
    returning the number of characters consumed. -/
def currencyAmountAt : Str → Option Nat
  | '$' :: c :: rest =>
    if isAsciiDigit c then
      let run := rest.takeWhile fun d => isAsciiDigit d || d == ','
      let fracLen :=
        match rest.drop run.length with
        | '.' :: r3 =>
          let ds := r3.takeWhile isAsciiDigit
          if ds.isEmpty then 0 else 1 + ds.length
        | _ => 0
      some (2 + run.length + fracLen)
    else none
  | _ => none

/-- Match the pre-mask regex
    \$(\d[\d,]*(?:\.\d+)?)\s*-\s*\$(\d[\d,]*(?:\.\d+)?) at the head of s. -/
def currencyRangeAt (s : Str) : Option Nat :=
  match currencyAmountAt s with
  | none => none
  | some l1 =>
    let r := s.drop l1
    let sp1 := (r.takeWhile isJsSpace).length
    match r.drop sp1 with
    | '-' :: r2 =>
      let sp2 := (r2.takeWhile isJsSpace).length
      match currencyAmountAt (r2.drop sp2) with
      | none => none
      | some l2 => some (l1 + sp1 + 1 + sp2 + l2)
    | _ => none

def premaskAux : Str → Nat → Nat → Str × List (Str × Str) × Nat
  | _, cnt, 0 => ([], [], cnt)
  | s, cnt, fuel+1 =>
    match s with
    | [] => ([], [], cnt)
    | c :: rest =>
      match currencyRangeAt (c :: rest) with
      | some l =>
        let ph := strOf "::CUR" ++ natToStr cnt ++ strOf "::"
        let out := premaskAux ((c :: rest).drop l) (cnt + 1) fuel
        (ph ++ out.1, (ph, (c :: rest).take l) :: out.2.1, out.2.2)
      | none =>
        let out := premaskAux rest cnt fuel
        (c :: out.1, out.2.1, out.2.2)

/-- Step 1 of protect (source lines 56-68): the global currency-range
    pre-mask replacement; returns the masked text, the currency map in
    insertion order, and the final currency counter. -/
def premask (s : Str) : Str × List (Str × Str) × Nat := premaskAux s 0 (s.length + 1)

structure ProtectResult where
  protectedText : Str
  mathMap : SpanTable
  counter : Nat
deriving DecidableEq, Repr

/-- Step 3 and the return of protect: unconditionally resolve every
    currency placeholder in the scanned text and package the result. -/
def finishProtect (curMap : List (Str × Str)) : Str × SpanTable × Nat → ProtectResult
  | (txt, tbl, cnt) => ⟨curMap.foldl (fun s pr => replaceAll s pr.1 pr.2) txt, tbl, cnt⟩

/-- MathProtector.protect (source lines 37-119), with the instance token
    counter threaded explicitly (the only instance state the call reads;
    the currency map and currency counter are reset at the start of the
    call, and every currency placeholder is unconditionally restored in
    Step 3 before returning). -/
def protect (counter : Nat) (content : Str) : ProtectResult :=
  if content = [] then ⟨[], [], counter⟩
  else
    match premask content with
    | (masked, curMap, _) =>
      finishProtect curMap
        (delimiters.foldl
          (fun acc d => match acc with | (s, tb, c) => extractAndReplace s d tb c)
          (masked, [], counter))

def strLeBool : Str → Str → Bool
  | [], _ => true
  | _ :: _, [] => false
  | a :: s, b :: t =>
    if a.toNat < b.toNat then true
    else if b.toNat < a.toNat then false
    else strLeBool s t

def insertDesc (x : Str) : List Str → List Str
  | [] => [x]
  | y :: ys => if strLeBool y x then x :: y :: ys else y :: insertDesc x ys

/-- Array.from(map.keys()).sort().reverse(): the keys in descending
    UTF-16 code-unit order (keys are pairwise distinct here). -/
def sortDesc : List Str → List Str
  | [] => []
  | x :: xs => insertDesc x (sortDesc xs)

def lookupSpan (table : SpanTable) (k : Str) : Option SpanInfo :=
  match table.find? fun e => e.1 == k with
  | some e => some e.2
  | none => none

/-- MathProtector.restore (source lines 121-152).  The KaTeX backend of
    renderMathExpression is abstracted as an optional function from the
    decoded original text and the span record to the rendered markup;
    every claim below runs with rendering disabled, where the source
    replaces each placeholder by its verbatim original. -/
def restore (renderOnRestore : Bool) (katex : Option (Str → SpanInfo → Str))
    (content : Str) (mathMap : SpanTable) : Str :=
  if content = [] ∨ mathMap = [] then content
  else
    (sortDesc (mathMap.map Prod.fst)).foldl
      (fun acc ph =>
        match lookupSpan mathMap ph with
        | none => acc
        | some info =>
          let original? :=
            if info.encodedOriginal ≠ [] then some (decodeBase64 info.encodedOriginal)
            else if info.original ≠ [] then some info.original
            else none
          match original? with
          | none => acc
          | some original =>
            let replacement :=
              match renderOnRestore, katex with
              | true, some k => k original info
              | _, _ => original
            replaceAll acc ph replacement)
      content

/-! ### handlers/streaming-math-renderer.js (the shared-classifier variant) -/

structure RenderStats where
  rendersAttempted : Nat
  rendersSkipped : Nat
  rendersExecuted : Nat
deriving DecidableEq, Repr

structure StreamDelim where
  left : Str
  right : Str
  display : Bool
deriving DecidableEq, Repr

/-- The streaming renderer's delimiter list (note the order differs from
    the MathProtector: single-dollar is scanned second here). -/
def streamDelims : List StreamDelim :=
  [⟨strOf "$$", strOf "$$", true⟩, ⟨strOf "$", strOf "$", false⟩,
   ⟨strOf "\\[", strOf "\\]", true⟩, ⟨strOf "\\(", strOf "\\)", false⟩]

structure TrackerState where
  seenFormulas : List Str
  lastContentHash : Str
  consecutiveSkips : Nat
  lastCharWasWhitespace : Bool
  accumulatedContent : Str
  stats : RenderStats
deriving DecidableEq, Repr

/-- The constructor state of StreamingMathRenderer. -/
def initTracker : TrackerState := ⟨[], [], 0, false, [], ⟨0, 0, 0⟩⟩

def maskCurrencyRangesAux : Str → Nat → Str
  | _, 0 => []
  | s, fuel+1 =>
    match s with
    | [] => []
    | c :: rest =>
      match currencyRangeAt (c :: rest) with
      | some l => strOf "___CURRENCY_RANGE___" ++ maskCurrencyRangesAux ((c :: rest).drop l) fuel
      | none => c :: maskCurrencyRangesAux rest fuel

/-- The currency-range masking at the top of extractFormulaSignatures
    (source lines 80-81), replacing each range with a fixed marker. -/
def maskCurrencyRanges (s : Str) : Str := maskCurrencyRangesAux s (s.length + 1)

def findDollarCloserNPAux (s : Str) : Nat → Nat → Option Nat
  | _, 0 => none
  | tempPos, fuel+1 =>
    if tempPos < s.length then
      match indexOfFrom s (strOf "$") tempPos with
      | none => none
      | some foundPos =>
        if 0 < foundPos && s.getD (foundPos - 1) ' ' == '\\' then
          findDollarCloserNPAux s (foundPos + 1) fuel
        else some foundPos
    else none

/-- The streaming variant of the closing-dollar search (source lines
    97-113): skip escaped dollars, with no paragraph limit. -/
def findDollarCloserNP (s : Str) (tempPos : Nat) : Option Nat :=
  findDollarCloserNPAux s tempPos (s.length + 1 - tempPos)

inductive SigStep where
  | stop : SigStep
  | skip : Nat → SigStep
  | push : Str → Nat → SigStep
deriving Repr

/-- One iteration of the extractFormulaSignatures scan loop (source
    lines 86-134) at cursor searchPos: stop, move the cursor, or emit a
    signature and move the cursor. -/
def sigStep (clean : Str) (d : StreamDelim) (searchPos : Nat) : SigStep :=
  match indexOfFrom clean d.left searchPos with
  | none => .stop
  | some leftPos =>
    if d.left = strOf "$" ∧ isInsideBackticks clean leftPos then .skip (leftPos + 1)
    else
      let rightPos? :=
        if d.left = strOf "$" then findDollarCloserNP clean (leftPos + d.left.length)
        else indexOfFrom clean d.right (leftPos + d.left.length)
      match rightPos? with
      | none => .stop
      | some rightPos =>
        let formula := jsSubstring clean (leftPos + d.left.length) rightPos
        if jsTrim formula ≠ [] then
          if d.left = strOf "$" ∧ looksLikeCurrency formula then .skip (leftPos + 1)
          else .push (d.left ++ hashBase36 formula) (rightPos + d.right.length)
        else .skip (rightPos + d.right.length)

def sigScanAux (clean : Str) (d : StreamDelim) : Nat → Nat → List Str
  | _, 0 => []
  | searchPos, fuel+1 =>
    match sigStep clean d searchPos with
    | .stop => []
    | .skip pos => sigScanAux clean d pos fuel
    | .push sig pos => sig :: sigScanAux clean d pos fuel

/-- StreamingMathRenderer.extractFormulaSignatures (source lines 75-138). -/
def extractFormulaSignatures (content : Str) : List Str :=
  let clean := maskCurrencyRanges content
  streamDelims.foldl (fun acc d => acc ++ sigScanAux clean d 0 (clean.length + 2)) []

/-- JS Set.prototype.add on an insertion-ordered membership list. -/
def jsSetAdd (seen : List Str) (x : Str) : List Str :=
  if seen.contains x then seen else seen ++ [x]

structure ChunkResult (El : Type) where
  state : TrackerState
  element : El
  returned : Bool
  backendInvoked : Bool

/-- StreamingMathRenderer.processChunk (source lines 36-65).  The
    renderMathInElement backend is abstracted as an optional function on
    an abstract element type returning the updated element and the
    "afterCount > beforeCount" flag of renderMath; `backendInvoked`
    records whether that backend function was called. -/
def processChunk {El : Type} (backend : Option (El → El × Bool)) (st : TrackerState)
    (content : Str) (el : El) : ChunkResult El :=
  let st1 : TrackerState :=
    { st with
      stats := { st.stats with rendersAttempted := st.stats.rendersAttempted + 1 },
      accumulatedContent := st.accumulatedContent ++ content,
      lastCharWasWhitespace :=
        match content.getLast? with
        | some c => isJsSpace c
        | none => false }
  let currentFormulas := extractFormulaSignatures content
  let newFormulas := currentFormulas.filter fun sig => !st1.seenFormulas.contains sig
  if newFormulas = [] then
    ⟨{ st1 with
        stats := { st1.stats with rendersSkipped := st1.stats.rendersSkipped + 1 },
        consecutiveSkips := st1.consecutiveSkips + 1 }, el, false, false⟩
  else
    match backend with
    | none => ⟨st1, el, false, false⟩
    | some f =>
      let r := f el
      if r.2 then
        ⟨{ st1 with
            seenFormulas := newFormulas.foldl jsSetAdd st1.seenFormulas,
            consecutiveSkips := 0,
            stats := { st1.stats with rendersExecuted := st1.stats.rendersExecuted + 1 } },
          r.1, true, true⟩
      else ⟨st1, r.1, false, true⟩

/-! ### mertex.js StreamRenderer -/

structure StreamState (El : Type) where
  tracker : TrackerState
  content : Str
  element : El

/-- StreamRenderer.appendContent (mertex.js lines 117-133): append the
    chunk to the cumulative content and hand the whole cumulative content
    to processChunk.  The incremental DOM renderer gate is abstracted as
    always reporting an update (its behavior is pure DOM bookkeeping). -/
def appendContent {El : Type} (backend : Option (El → El × Bool)) (ss : StreamState El)
    (chunk : Str) : StreamState El :=
  if chunk = [] then ss
  else
    let content2 := ss.content ++ chunk
    let r := processChunk backend ss.tracker content2 ss.element
    ⟨r.state, content2, r.element⟩

/-- Feed a list of chunks through a fresh StreamRenderer. -/
def streamChunks {El : Type} (backend : Option (El → El × Bool)) (el : El)
    (chunks : List Str) : StreamState El :=
  chunks.foldl (appendContent backend) ⟨initTracker, [], el⟩

/-! ### Concrete inputs used by the claim theorems -/

/-- Nine display spans followed by three adjacent single-dollar spans.
    All twelve delimiter pairs are well formed, non-overlapping and
    non-nested, and the text contains no reserved token sequences. -/
def c1Input : Str :=
  strOf "$$u$$ $$v$$ $$w$$ $$h$$ $$i$$ $$j$$ $$k$$ $$l$$ $$m$$ $a$$b$$c$"

def c2Input : Str := strOf "$x+y$"

def c3Input : Str := strOf "$x^2 then $50-$100"

def c4Input : Str := strOf "The equation $x^2$ costs $50"

def c5Input : Str := strOf "$a$ then $$b$$ then $c$ then \\[d\\] then $e$ then \\(f\\)"

def c6Input : Str := strOf "Range: $50-$100"

def c7Chunk : Str := strOf "$x=1$"

/-- A tracker that has already seen every signature of `c7Chunk`. -/
def c7Seen : TrackerState :=
  { initTracker with seenFormulas := extractFormulaSignatures c7Chunk }

/-- A backend that always reports that new rendering occurred
    (the success/idempotence contract assumed by the spec). -/
def alwaysRender : Unit → Unit × Bool := fun u => (u, true)

/-- A chunk split of "$x=1$0-$20" whose second chunk completes a currency
    range through the first chunk's closing dollar. -/
def c8Chunks : List Str := [strOf "$x=1$", strOf "0-$20"]

def c9Chunk : Str := strOf "x"

def c10State : ScanState := ⟨strOf "$a$", 0, [], 0⟩

/-- A complete (non-pending) span record as the scanner stores it. -/
def mkSpanRec (orig inner : String) (d : Delim) : SpanInfo :=
  ⟨strOf orig, encodeBase64 (strOf orig), d.display, strOf inner, d, false⟩

/-- The span table protect builds for `c1Input`: the nine display spans,
    the stolen "$$b$$" (token 9), and the single-dollar capture (token 10)
    whose original text embeds the token-9 placeholder. -/
def c1Table : SpanTable :=
  [(mathTokenStr 0, mkSpanRec "$$u$$" "u" ddDelim),
   (mathTokenStr 1, mkSpanRec "$$v$$" "v" ddDelim),
   (mathTokenStr 2, mkSpanRec "$$w$$" "w" ddDelim),
   (mathTokenStr 3, mkSpanRec "$$h$$" "h" ddDelim),
   (mathTokenStr 4, mkSpanRec "$$i$$" "i" ddDelim),
   (mathTokenStr 5, mkSpanRec "$$j$$" "j" ddDelim),
   (mathTokenStr 6, mkSpanRec "$$k$$" "k" ddDelim),
   (mathTokenStr 7, mkSpanRec "$$l$$" "l" ddDelim),
   (mathTokenStr 8, mkSpanRec "$$m$$" "m" ddDelim),
   (mathTokenStr 9, mkSpanRec "$$b$$" "b" ddDelim),
   (mathTokenStr 10, mkSpanRec "$a::MATH_9::c$" "a::MATH_9::c" sdDelim)]

/-- The protected text protect produces for `c1Input`. -/
def c1Protected : Str :=
  strOf "::MATH_0:: ::MATH_1:: ::MATH_2:: ::MATH_3:: ::MATH_4:: ::MATH_5:: ::MATH_6:: ::MATH_7:: ::MATH_8:: ::MATH_10::"

/-! ### Helper lemmas about the primitives -/

theorem indexOfAux_some {s pat : Str} {fuel : Nat} :
    ∀ {i j : Nat}, indexOfAux s pat i fuel = some j →
      i ≤ j ∧ isPrefixAt pat s j = true := by
  induction fuel with
  | zero => intro i j h; simp [indexOfAux] at h
  | succ n ih =>
    intro i j h
    unfold indexOfAux at h
    split at h
    · cases h; exact ⟨Nat.le_refl _, by assumption⟩
    · have hr := ih h
      exact ⟨Nat.le_trans (Nat.le_succ i) hr.1, hr.2⟩

theorem indexOfFrom_some {s pat : Str} {start j : Nat}
    (h : indexOfFrom s pat start = some j) :
    start ≤ j ∧ isPrefixAt pat s j = true :=
  indexOfAux_some h

theorem isPrefixAt_bound {pat s : Str} {i : Nat} (hp : pat ≠ [])
    (h : isPrefixAt pat s i = true) : i < s.length ∧ i + pat.length ≤ s.length := by
  have hpre : pat <+: s.drop i := List.isPrefixOf_iff_prefix.mp h
  have hlen := hpre.length_le
  rw [List.length_drop] at hlen
  have hpos : 0 < pat.length := List.length_pos.mpr hp
  omega

theorem isPrefixAt_head {c : Char} {cs s : Str} {i : Nat}
    (h : isPrefixAt (c :: cs) s i = true) : (s.drop i).head? = some c := by
  unfold isPrefixAt at h
  cases hd : s.drop i with
  | nil => rw [hd] at h; simp [List.isPrefixOf] at h
  | cons d ds =>
    rw [hd] at h
    simp only [List.isPrefixOf, Bool.and_eq_true] at h
    have : c = d := by
      have := h.1
      exact eq_of_beq this
    simp [this]

theorem findDollarCloserAux_some {s : Str} {pb : Option Nat} {fuel : Nat} :
    ∀ {tempPos f : Nat}, findDollarCloserAux s pb tempPos fuel = some f →
      tempPos ≤ f ∧ isPrefixAt (strOf "$") s f = true := by
  induction fuel with
  | zero => intro t f h; simp [findDollarCloserAux] at h
  | succ n ih =>
    intro t f h
    unfold findDollarCloserAux at h
    split at h
    · split at h
      · simp at h
      · rename_i foundPos hfound
        split at h
        · simp at h
        · split at h
          · have hr := ih h
            have hidx := indexOfFrom_some hfound
            exact ⟨by omega, hr.2⟩
          · cases h
            exact indexOfFrom_some hfound
    · simp at h

theorem closerFor_some_ge {delim : Delim} {s : Str} {leftPos r : Nat}
    (hl : delim.left ≠ []) (h : closerFor delim s leftPos = some r) :
    leftPos + 1 ≤ r := by
  unfold closerFor at h
  split at h
  · have h1 := (indexOfFrom_some h).1
    have h2 : 0 < delim.left.length := List.length_pos.mpr hl
    omega
  · split at h
    · exact (findDollarCloserAux_some h).1
    · have h1 := (indexOfFrom_some h).1
      have h2 : 0 < delim.left.length := List.length_pos.mpr hl
      omega

/-- Every `next` iteration of the scan loop strictly shrinks the
    unscanned suffix `result.length - searchPos`, even though a splice
    can lengthen the overall text. -/
theorem scanStep_next_measure {delim : Delim} {st st2 : ScanState}
    (hl : delim.left ≠ []) (hn : delim.left.head? ≠ some '\n')
    (hlt : st.searchPos < st.result.length)
    (h : scanStep delim st = ScanStep.next st2) :
    st2.result.length - st2.searchPos < st.result.length - st.searchPos := by
  obtain ⟨c0, cs0, hleft0⟩ := List.exists_cons_of_ne_nil hl
  unfold scanStep at h
  split at h
  · simp at h
  · rename_i leftPos hleft
    have hge := (indexOfFrom_some hleft).1
    have hb := isPrefixAt_bound hl (indexOfFrom_some hleft).2
    split at h
    · cases h; simp; omega
    · split at h
      · cases h; simp; omega
      · cases hcl : closerFor delim st.result leftPos with
        | none =>
          rw [hcl] at h
          dsimp only at h
          split at h
          · cases h; simp; omega
          · rename_i hpara0
            cases hpara : indexOfFrom st.result (strOf "\n\n") leftPos with
            | none =>
              rw [hpara] at h
              dsimp only at h
              split at h
              · cases h
                simp [List.length_append, List.length_take, List.length_drop]
                omega
              · simp at h
            | some p =>
              rw [hpara] at h
              dsimp only at h
              have hp1 := (indexOfFrom_some hpara).1
              have hp2 : (st.result.drop p).head? = some '\n' := by
                have := (indexOfFrom_some hpara).2
                rw [show strOf "\n\n" = '\n' :: '\n' :: [] from rfl] at this
                exact isPrefixAt_head this
              have hld : (st.result.drop leftPos).head? = some c0 := by
                have := (indexOfFrom_some hleft).2
                rw [hleft0] at this
                exact isPrefixAt_head this
              have hne : p ≠ leftPos := by
                intro he
                rw [he, hld] at hp2
                have hc : c0 = '\n' := Option.some.inj hp2
                rw [hleft0, hc] at hn
                simp at hn
              split at h
              · cases h
                simp [List.length_append, List.length_take, List.length_drop]
                omega
              · simp at h
        | some rightPos =>
          rw [hcl] at h
          dsimp only at h
          have hclge := closerFor_some_ge hl hcl
          split at h
          · cases h; simp; omega
          · split at h
            · cases h; simp; omega
            · split at h
              · cases h; simp; omega
              · split at h
                · cases h; simp; omega
                · cases h
                  simp [List.length_append, List.length_take, List.length_drop]
                  omega

theorem scanStep_next_tokens {delim : Delim} {st st2 : ScanState}
    (h : scanStep delim st = ScanStep.next st2) :
    (st2.table = st.table ∧ st2.counter = st.counter) ∨
    ∃ b info, st2.table = st.table ++ [(mkToken b st.counter, info)] ∧
      st2.counter = st.counter + 1 := by
  unfold scanStep at h
  split at h
  · simp at h
  · rename_i leftPos hleft
    split at h
    · cases h; exact Or.inl ⟨rfl, rfl⟩
    · split at h
      · cases h; exact Or.inl ⟨rfl, rfl⟩
      · cases hcl : closerFor delim st.result leftPos with
        | none =>
          rw [hcl] at h
          dsimp only at h
          split at h
          · cases h; exact Or.inl ⟨rfl, rfl⟩
          · cases hpara : indexOfFrom st.result (strOf "\n\n") leftPos with
            | none =>
              rw [hpara] at h
              dsimp only at h
              split at h
              · cases h
                exact Or.inr ⟨true, _, rfl, rfl⟩
              · simp at h
            | some p =>
              rw [hpara] at h
              dsimp only at h
              split at h
              · cases h
                exact Or.inr ⟨true, _, rfl, rfl⟩
              · simp at h
        | some rightPos =>
          rw [hcl] at h
          dsimp only at h
          split at h
          · cases h; exact Or.inl ⟨rfl, rfl⟩
          · split at h
            · cases h; exact Or.inl ⟨rfl, rfl⟩
            · split at h
              · cases h; exact Or.inl ⟨rfl, rfl⟩
              · split at h
                · cases h; exact Or.inl ⟨rfl, rfl⟩
                · cases h
                  exact Or.inr ⟨false, _, rfl, rfl⟩

theorem tokensFrom_refl (tb : SpanTable) (c : Nat) : TokensFrom tb c tb c :=
  ⟨0, [], rfl, rfl, by simp⟩

theorem tokensFrom_trans {tb0 tb1 tb2 : SpanTable} {c0 c1 c2 : Nat}
    (h1 : TokensFrom tb0 c0 tb1 c1) (h2 : TokensFrom tb1 c1 tb2 c2) :
    TokensFrom tb0 c0 tb2 c2 := by
  obtain ⟨k1, f1, hf1, hc1, ht1⟩ := h1
  obtain ⟨k2, f2, hf2, hc2, ht2⟩ := h2
  refine ⟨k1 + k2, f1 ++ f2, by simp [hf1, hf2], by omega, ?_⟩
  rw [ht2, ht1, List.append_assoc]
  congr 1
  have hr : List.range' c0 k1 ++ List.range' (c0 + k1) k2 = List.range' c0 (k1 + k2) := by
    have hra := List.range'_append c0 k1 k2 1
    rw [Nat.one_mul] at hra
    rw [hra, Nat.add_comm]
  rw [← hr, List.zipWith_append _ _ _ _ _ (by simp [hf1, List.length_range']), hc1]

theorem scanLoopAux_isSome {delim : Delim} (hl : delim.left ≠ [])
    (hn : delim.left.head? ≠ some '\n') :
    ∀ (fuel : Nat) (st : ScanState), st.result.length - st.searchPos + 1 ≤ fuel →
      (scanLoopAux delim fuel st).isSome := by
  intro fuel
  induction fuel with
  | zero => intro st h; omega
  | succ n ih =>
    intro st h
    unfold scanLoopAux
    split
    · rename_i hlt
      cases hstep : scanStep delim st with
      | halt => simp
      | next st2 =>
        have := scanStep_next_measure hl hn hlt hstep
        exact ih st2 (by omega)
    · simp

theorem scanLoopAux_tokens {delim : Delim} :
    ∀ (fuel : Nat) (st st2 : ScanState), scanLoopAux delim fuel st = some st2 →
      TokensFrom st.table st.counter st2.table st2.counter := by
  intro fuel
  induction fuel with
  | zero => intro st st2 h; simp [scanLoopAux] at h
  | succ n ih =>
    intro st st2 h
    unfold scanLoopAux at h
    split at h
    · cases hstep : scanStep delim st with
      | halt =>
        rw [hstep] at h; cases h
        exact tokensFrom_refl _ _
      | next stm =>
        rw [hstep] at h
        have hrest := ih stm st2 h
        rcases scanStep_next_tokens hstep with ⟨hteq, hceq⟩ | ⟨b, info, hteq, hceq⟩
        · rw [← hteq, ← hceq] at *
          exact hrest
        · refine tokensFrom_trans ?_ hrest
          exact ⟨1, [b], rfl, hceq, by rw [hteq]; simp⟩
    · cases h
      exact tokensFrom_refl _ _

theorem extractAndReplace_tokens (content : Str) (delim : Delim) (table : SpanTable)
    (counter : Nat) :
    TokensFrom table counter
      (extractAndReplace content delim table counter).2.1
      (extractAndReplace content delim table counter).2.2 := by
  unfold extractAndReplace
  cases hscan : scanLoopAux delim (content.length + 1) ⟨content, 0, table, counter⟩ with
  | none => exact tokensFrom_refl _ _
  | some st2 => exact scanLoopAux_tokens _ _ _ hscan

theorem foldl_extract_tokens (ds : List Delim) :
    ∀ (s : Str) (tb : SpanTable) (c : Nat),
      TokensFrom tb c
        (ds.foldl (fun acc d => match acc with | (s, tb, c) => extractAndReplace s d tb c)
          (s, tb, c)).2.1
        (ds.foldl (fun acc d => match acc with | (s, tb, c) => extractAndReplace s d tb c)
          (s, tb, c)).2.2 := by
  induction ds with
  | nil => intro s tb c; exact tokensFrom_refl _ _
  | cons d rest ih =>
    intro s tb c
    simp only [List.foldl_cons]
    cases hE : extractAndReplace s d tb c with
    | mk s1 rest1 =>
      cases rest1 with
      | mk tb1 c1 =>
        have h1 : TokensFrom tb c tb1 c1 := by
          have := extractAndReplace_tokens s d tb c
          rw [hE] at this
          exact this
        exact tokensFrom_trans h1 (ih s1 tb1 c1)

theorem finishProtect_fields (curMap : List (Str × Str)) (t : Str × SpanTable × Nat) :
    (finishProtect curMap t).mathMap = t.2.1 ∧ (finishProtect curMap t).counter = t.2.2 := by
  cases t with
  | mk a r =>
    cases r with
    | mk b c2 => exact ⟨rfl, rfl⟩

theorem protect_tokens (counter : Nat) (content : Str) :
    ∃ (k : Nat) (flags : List Bool), flags.length = k ∧
      (protect counter content).counter = counter + k ∧
      (protect counter content).mathMap.map Prod.fst =
        List.zipWith mkToken flags (List.range' counter k) := by
  unfold protect
  split
  · exact ⟨0, [], rfl, rfl, by simp⟩
  · cases hm : premask content with
    | mk masked rest =>
      cases rest with
      | mk curMap cc =>
        dsimp only
        obtain ⟨k, flags, hfl, hc, ht⟩ :=
          foldl_extract_tokens delimiters masked ([] : SpanTable) counter
        rw [(finishProtect_fields curMap _).1, (finishProtect_fields curMap _).2]
        exact ⟨k, flags, hfl, hc, by simpa using ht⟩

theorem delim_facts {delim : Delim} (h : delim ∈ delimiters) :
    delim.left ≠ [] ∧ delim.left.head? ≠ some '\n' := by
  simp only [delimiters, List.mem_cons, List.not_mem_nil, or_false] at h
  rcases h with rfl | rfl | rfl | rfl
  · exact ⟨by decide, by decide⟩
  · exact ⟨by decide, by decide⟩
  · exact ⟨by decide, by decide⟩
  · exact ⟨by decide, by decide⟩

/-- C10: protect terminates on every finite input.  For each of the four
    delimiter kinds and EVERY scan state, the extractAndReplace loop run
    with fuel `result.length - searchPos + 1` completes (returns `some`):
    each iteration either halts or strictly shrinks the unscanned suffix
    (past a skipped opener, past a discarded empty match, or past an
    inserted placeholder), so the fuel the embedding gives the loop is
    always sufficient and the per-delimiter scan, hence protect, returns. -/
theorem c10_scan_terminates (delim : Delim) (hdelim : delim ∈ delimiters) (st : ScanState) :
    (scanLoopAux delim (extractFuel st) st).isSome := by
  obtain ⟨hl, hn⟩ := delim_facts hdelim
  exact scanLoopAux_isSome hl hn (extractFuel st) st (by unfold extractFuel; omega)

theorem c10_scan_terminates_witness :
    sdDelim ∈ delimiters ∧ (scanLoopAux sdDelim (extractFuel c10State) c10State).isSome :=
  ⟨by decide, c10_scan_terminates sdDelim (by decide) c10State⟩

/-- C2 (amended): token numbering is per-instance, not per-pass.  For an
    instance whose counter holds `counter`, a protect call numbers the
    spans it captures consecutively `counter, counter+1, ...` (each token
    is the math or pending token of its number) and leaves the instance
    counter advanced by the number of captured spans.  Numbering starts
    at 0 only when the instance counter is 0 (a fresh or reset instance);
    protect itself never resets it (see the counterexample). -/
theorem c2_tokens_from_instance_counter (counter : Nat) (content : Str) :
    ∃ (k : Nat) (flags : List Bool), flags.length = k ∧
      (protect counter content).counter = counter + k ∧
      (protect counter content).mathMap.map Prod.fst =
        List.zipWith mkToken flags (List.range' counter k) :=
  protect_tokens counter content

theorem contains_iff_mem (l : List Str) (x : Str) : l.contains x = true ↔ x ∈ l := by
  simp [List.contains, List.elem_iff]

/-- C7: duplicate-chunk skip.  For every tracker state and every chunk
    whose extracted formula signatures are all already in the seen-set,
    processChunk returns false, increments rendersSkipped by exactly 1,
    leaves rendersExecuted and the seen-set unchanged, and never invokes
    the rendering backend. -/
theorem c7_duplicate_chunk_skip {El : Type} (backend : Option (El → El × Bool))
    (st : TrackerState) (content : Str) (el : El)
    (h : ∀ sig ∈ extractFormulaSignatures content, sig ∈ st.seenFormulas) :
    (processChunk backend st content el).returned = false ∧
    (processChunk backend st content el).backendInvoked = false ∧
    (processChunk backend st content el).state.stats.rendersSkipped =
      st.stats.rendersSkipped + 1 ∧
    (processChunk backend st content el).state.stats.rendersExecuted =
      st.stats.rendersExecuted ∧
    (processChunk backend st content el).state.seenFormulas = st.seenFormulas := by
  have hnil : (extractFormulaSignatures content).filter
      (fun sig => !st.seenFormulas.contains sig) = [] := by
    apply List.filter_eq_nil_iff.mpr
    intro a ha
    simp [contains_iff_mem, h a ha]
  unfold processChunk
  dsimp only
  rw [hnil]
  exact ⟨rfl, rfl, rfl, rfl, rfl⟩

theorem c7_duplicate_chunk_skip_witness :
    (processChunk (none : Option (Unit → Unit × Bool)) c7Seen c7Chunk ()).returned = false ∧
    (processChunk (none : Option (Unit → Unit × Bool)) c7Seen c7Chunk ()).backendInvoked = false ∧
    (processChunk (none : Option (Unit → Unit × Bool)) c7Seen c7Chunk ()).state.stats.rendersSkipped =
      c7Seen.stats.rendersSkipped + 1 ∧
    (processChunk (none : Option (Unit → Unit × Bool)) c7Seen c7Chunk ()).state.stats.rendersExecuted =
      c7Seen.stats.rendersExecuted ∧
    (processChunk (none : Option (Unit → Unit × Bool)) c7Seen c7Chunk ()).state.seenFormulas =
      c7Seen.seenFormulas :=
  c7_duplicate_chunk_skip none c7Seen c7Chunk () (by decide)

/-- C9 (amended): with the in-place rendering backend absent, processChunk
    returns false and never renders: the backend is not invoked and the
    seen-set and rendersExecuted are unchanged.  It is however not a
    complete no-op on the tracker: rendersAttempted is incremented and the
    chunk is appended to the accumulated buffer (see the counterexample). -/
theorem c9_absent_backend {El : Type} (st : TrackerState) (content : Str) (el : El) :
    (processChunk (none : Option (El → El × Bool)) st content el).returned = false ∧
    (processChunk (none : Option (El → El × Bool)) st content el).backendInvoked = false ∧
    (processChunk (none : Option (El → El × Bool)) st content el).state.seenFormulas =
      st.seenFormulas ∧
    (processChunk (none : Option (El → El × Bool)) st content el).state.stats.rendersExecuted =
      st.stats.rendersExecuted ∧
    (processChunk (none : Option (El → El × Bool)) st content el).state.stats.rendersAttempted =
      st.stats.rendersAttempted + 1 ∧
    (processChunk (none : Option (El → El × Bool)) st content el).state.accumulatedContent =
      st.accumulatedContent ++ content := by
  unfold processChunk
  dsimp only
  split
  · exact ⟨rfl, rfl, rfl, rfl, rfl, rfl⟩
  · exact ⟨rfl, rfl, rfl, rfl, rfl, rfl⟩

theorem mem_foldl_jsSetAdd (l : List Str) :
    ∀ (seen : List Str) (x : Str), x ∈ l.foldl jsSetAdd seen ↔ x ∈ seen ∨ x ∈ l := by
  induction l with
  | nil => intro seen x; simp
  | cons a t ih =>
    intro seen x
    simp only [List.foldl_cons]
    rw [ih]
    unfold jsSetAdd
    split
    · rename_i hc
      have ha : a ∈ seen := (contains_iff_mem seen a).mp hc
      constructor
      · rintro (hx | hx)
        · exact Or.inl hx
        · exact Or.inr (List.mem_cons_of_mem a hx)
      · rintro (hx | hx)
        · exact Or.inl hx
        · rcases List.mem_cons.mp hx with rfl | hx2
          · exact Or.inl ha
          · exact Or.inr hx2
    · simp [List.mem_append, List.mem_cons]
      tauto

theorem processChunk_seen_supset {El : Type} (backend : Option (El → El × Bool))
    (st : TrackerState) (content : Str) (el : El) (x : Str)
    (hx : x ∈ st.seenFormulas) :
    x ∈ (processChunk backend st content el).state.seenFormulas := by
  unfold processChunk
  dsimp only
  split
  · exact hx
  · split
    · exact hx
    · rename_i f
      split
      · exact (mem_foldl_jsSetAdd _ _ _).mpr (Or.inl hx)
      · exact hx

theorem processChunk_seen_always {El : Type} (f : El → El × Bool)
    (hf : ∀ e, (f e).2 = true) (st : TrackerState) (content : Str) (el : El) (x : Str) :
    x ∈ (processChunk (some f) st content el).state.seenFormulas ↔
      x ∈ st.seenFormulas ∨ x ∈ extractFormulaSignatures content := by
  unfold processChunk
  dsimp only
  split
  · rename_i hnil
    have hsub : ∀ a ∈ extractFormulaSignatures content, a ∈ st.seenFormulas := by
      intro a ha
      have := List.filter_eq_nil_iff.mp hnil a ha
      simp [contains_iff_mem] at this
      exact this
    constructor
    · exact fun hx => Or.inl hx
    · rintro (hx | hx)
      · exact hx
      · exact hsub x hx
  · rename_i hnnil
    split
    · rename_i hr
      rw [mem_foldl_jsSetAdd]
      constructor
      · rintro (hx | hx)
        · exact Or.inl hx
        · exact Or.inr (List.mem_of_mem_filter hx)
      · rintro (hx | hx)
        · exact Or.inl hx
        · by_cases hseen : x ∈ st.seenFormulas
          · exact Or.inl hseen
          · refine Or.inr (List.mem_filter.mpr ⟨hx, ?_⟩)
            simp [contains_iff_mem]
            exact hseen
    · rename_i hr
      exact absurd (hf el) (by simpa using hr)

theorem foldl_appendContent_content {El : Type} (backend : Option (El → El × Bool)) :
    ∀ (chunks : List Str) (ss : StreamState El),
      (chunks.foldl (appendContent backend) ss).content = ss.content ++ chunks.flatten := by
  intro chunks
  induction chunks with
  | nil => intro ss; simp
  | cons c t ih =>
    intro ss
    simp only [List.foldl_cons, List.flatten_cons]
    rw [ih]
    unfold appendContent
    split
    · rename_i hc
      rw [hc]
      simp
    · simp [List.append_assoc]

theorem sigs_nil : extractFormulaSignatures ([] : Str) = [] := by decide

theorem foldl_appendContent_inv {El : Type} (f : El → El × Bool)
    (hf : ∀ e, (f e).2 = true) :
    ∀ (chunks : List Str) (ss : StreamState El),
      (∀ y ∈ extractFormulaSignatures ss.content, y ∈ ss.tracker.seenFormulas) →
      ∀ y ∈ extractFormulaSignatures
          (chunks.foldl (appendContent (some f)) ss).content,
        y ∈ (chunks.foldl (appendContent (some f)) ss).tracker.seenFormulas := by
  intro chunks
  induction chunks with
  | nil => intro ss h; simpa using h
  | cons c t ih =>
    intro ss h
    simp only [List.foldl_cons]
    apply ih
    unfold appendContent
    split
    · exact h
    · intro y hy
      dsimp only at hy ⊢
      rw [processChunk_seen_always f hf]
      exact Or.inr hy

/-- C8 (amended): chunking is not seen-set invariant (see the
    counterexample), but it is one-sided: with a backend that always
    succeeds, every signature in the final seen-set of whole-content
    delivery is also in the final seen-set of delivery split at arbitrary
    chunk boundaries.  (The chunked run can retain additional prefix-only
    signatures that whole delivery never produces.) -/
theorem c8_chunked_seen_superset {El : Type} (f : El → El × Bool)
    (hf : ∀ e, (f e).2 = true) (el : El) (chunks : List Str) (x : Str)
    (hx : x ∈ (streamChunks (some f) el [chunks.flatten]).tracker.seenFormulas) :
    x ∈ (streamChunks (some f) el chunks).tracker.seenFormulas := by
  have hwhole : x ∈ extractFormulaSignatures chunks.flatten := by
    unfold streamChunks at hx
    simp only [List.foldl_cons, List.foldl_nil] at hx
    unfold appendContent at hx
    split at hx
    · simp [initTracker] at hx
    · dsimp only at hx
      rw [processChunk_seen_always f hf] at hx
      rcases hx with hx | hx
      · simp [initTracker] at hx
      · simpa using hx
  unfold streamChunks
  have hinv := foldl_appendContent_inv f hf chunks ⟨initTracker, [], el⟩
    (by intro y hy; rw [sigs_nil] at hy; cases hy)
  apply hinv
  rw [foldl_appendContent_content]
  simpa using hwhole

theorem c8_chunked_seen_superset_witness :
    (strOf "$" ++ hashBase36 (strOf "x=1")) ∈
      (streamChunks (some alwaysRender) () [strOf "$x=1$"]).tracker.seenFormulas :=
  c8_chunked_seen_superset alwaysRender (fun _ => rfl) () [strOf "$x=1$"]
    (strOf "$" ++ hashBase36 (strOf "x=1")) (by decide)

/-! ### Claim theorems: concrete evaluations -/

/-- C1: the round-trip identity fails on the code.  `c1Input` is made only
    of well-formed, non-overlapping, non-nested delimiter pairs and plain
    prose without reserved tokens, yet protect followed by restore with
    rendering disabled does not reproduce it: the double-dollar pass steals
    "$$b$$" (token 9) out of the three adjacent single-dollar spans, the
    single-dollar pass then captures token 10 whose original embeds the
    token-9 placeholder, and restore's reverse *lexicographic* key order
    processes "::MATH_9::" before "::MATH_10::", so the leaked "::MATH_9::"
    placeholder survives in the output. -/
theorem c1_roundtrip_fails_on_code :
    restore false none (protect 0 c1Input).protectedText (protect 0 c1Input).mathMap ≠ c1Input ∧
    containsSub
      (restore false none (protect 0 c1Input).protectedText (protect 0 c1Input).mathMap)
      (strOf "::MATH_9::") = true := by
  have hp : protect 0 c1Input = ⟨c1Protected, c1Table, 11⟩ := by decide
  rw [hp]
  exact ⟨by decide, by decide⟩

/-- C2 counterexample: the token counter is NOT per-pass.  `protect` never
    resets the instance counter (only the currency counter), so on a second
    call the first captured span receives token number 1, not 0. -/
theorem c2_counter_not_reset :
    (protect (protect 0 c2Input).counter c2Input).mathMap.map Prod.fst = [mathTokenStr 1] ∧
    mathTokenStr 1 ≠ mathTokenStr 0 := by
  constructor
  · decide
  · decide

/-- C3: a currency-mask token leaks into the returned SpanTable.  On
    `c3Input` the pre-mask replaces "$50-$100" by "::CUR0::", the opening
    dollar then has no closer, and the pending-span branch (which, unlike
    the complete-span branch, never checks for ::CUR tokens) captures the
    masked text, so the single returned span's original and innerContent
    both contain "::CUR0::" and the span is pending. -/
theorem c3_mask_leaks_into_table :
    (protect 0 c3Input).mathMap.map
      (fun e => (containsSub e.2.original (strOf "::CUR0::"),
                 containsSub e.2.innerContent (strOf "::CUR0::"),
                 e.2.isPending)) = [(true, true, true)] := by
  decide

/-- C4: "The equation $x^2$ costs $50" yields exactly one span with
    innerContent "x^2" and original "$x^2$", not pending; the trailing
    "$50" is left untouched in the protected text and yields no span. -/
theorem c4_single_math_span :
    (protect 0 c4Input).protectedText = strOf "The equation ::MATH_0:: costs $50" ∧
    (protect 0 c4Input).mathMap.map
      (fun e => (e.1, e.2.innerContent, e.2.original, e.2.isPending)) =
      [(strOf "::MATH_0::", strOf "x^2", strOf "$x^2$", false)] := by
  constructor
  · decide
  · decide

/-- C5: the six-span example.  The span table holds exactly six spans; in
    document (left-to-right) order they are $a$ (inline), $$b$$ (display),
    $c$ (inline), \[d\] (display), $e$ (inline), \(f\) (inline) — the
    second and fourth are display-mode — as shown by the originals and the
    placeholder layout of the protected text; and the delimiter list is in
    ascending priority order (double-dollar, bracket-display, paren-inline,
    single-dollar). -/
theorem c5_six_spans :
    (protect 0 c5Input).protectedText =
      strOf "::MATH_3:: then ::MATH_0:: then ::MATH_4:: then ::MATH_1:: then ::MATH_5:: then ::MATH_2::" ∧
    (protect 0 c5Input).mathMap.map (fun e => (e.1, e.2.original, e.2.display)) =
      [(strOf "::MATH_0::", strOf "$$b$$", true),
       (strOf "::MATH_1::", strOf "\\[d\\]", true),
       (strOf "::MATH_2::", strOf "\\(f\\)", false),
       (strOf "::MATH_3::", strOf "$a$", false),
       (strOf "::MATH_4::", strOf "$c$", false),
       (strOf "::MATH_5::", strOf "$e$", false)] ∧
    delimiters.map Delim.priority = [1, 2, 3, 4] := by
  refine ⟨by decide, by decide, by decide⟩

/-- C6: "Range: $50-$100" yields zero spans, the protected text equals the
    input (the pre-masked range is unconditionally restored), and restore
    with rendering disabled round-trips byte for byte. -/
theorem c6_currency_range_roundtrip :
    (protect 0 c6Input).mathMap = [] ∧
    (protect 0 c6Input).protectedText = c6Input ∧
    restore false none (protect 0 c6Input).protectedText (protect 0 c6Input).mathMap = c6Input := by
  refine ⟨by decide, by decide, by decide⟩

/-- C8 counterexample: chunking is NOT invariant.  Splitting
    "$x=1$0-$20" as ["$x=1$", "0-$20"] records the signature of "x=1"
    from the first cumulative prefix.  Delivering the whole string at
    once instead lets the currency-range pre-mask consume "$0-$20"
    (whose opening dollar is the math span's CLOSING dollar), the lone
    remaining dollar then finds no closer, and no signature is produced
    at all — so the final seen-sets differ. -/
theorem c8_chunking_not_invariant :
    (streamChunks (some alwaysRender) () c8Chunks).tracker.seenFormulas ≠
      (streamChunks (some alwaysRender) () [c8Chunks.flatten]).tracker.seenFormulas ∧
    ((streamChunks (some alwaysRender) () c8Chunks).tracker.seenFormulas).length = 1 ∧
    ((streamChunks (some alwaysRender) () [c8Chunks.flatten]).tracker.seenFormulas).length = 0 := by
  refine ⟨by decide, by decide, by decide⟩

/-- C9 counterexample: with the backend absent, processChunk is not a
    no-op on the tracker: it increments rendersAttempted and appends the
    chunk to the accumulated buffer. -/
theorem c9_not_a_noop :
    (processChunk (none : Option (Unit → Unit × Bool)) initTracker c9Chunk ()).state.stats.rendersAttempted ≠
      initTracker.stats.rendersAttempted ∧
    (processChunk (none : Option (Unit → Unit × Bool)) initTracker c9Chunk ()).state.accumulatedContent ≠
      initTracker.accumulatedContent := by
  constructor
  · decide
  · decide

end Mertex
